import Mathlib

/-!
Shallow embedding of the two OCR-confidence scripts of the
MiddleDutch_SisterBookCorpus_ModernDevout repository:

  * `src/ocr_middle_dutch_false_confidence_list.py`   (namespace `FalseConfidence`)
  * `src/Confidence_Tests/ocr_middle_dutch_lexical_confidence.py`
                                                      (namespace `LexicalConfidence`)

Texts are modelled as `List Char` (Unicode scalar values, as in Python 3
strings).  A `collections.Counter` is modelled by the list of all counted
occurrences: `Counter(tokens)` is the token list itself, `counter.update(ts)`
appends, `counter.get(w, 0)` is `List.count`, `sum(counter.values())` is
`List.length`, and `max(counter.values())` is the fold of `Nat.max` over the
multiplicity of each distinct element.  Python `float` arithmetic
(`math.log`, division) is modelled over the reals.  File-system traversal,
CSV serialisation and the 4-decimal float formatting are I/O and are outside
the embedding: corpus input is a list of decoded file contents, and a report
is the list of its rows.

Both scripts tokenize with `re.findall` applied to a regular expression that
is a single character class, repeated (`[...]+`).  The embedding therefore
models exactly that fragment of `re`: parsing a character-class body into a
list of codepoint ranges (Python's `sre_parse` raises `re.error: bad
character range` when a range has its bounds reversed), and `findall` of
`class+` as the list of maximal runs of matching characters, in input order.
The class body of each script is transcribed byte-for-byte from the decoded
source file.  The body in `ocr_middle_dutch_false_confidence_list.py` is
`A-Za-zÀ-ÿ`.  The source file of `ocr_middle_dutch_lexical_confidence.py` is
stored double-encoded (UTF-8 read as a single-byte codepage and re-encoded:
its comments show `ðŸ‘‰` for an emoji and `Ã©` style sequences), and its
regex literal decodes to the eleven characters `A`, `-`, `Z`, `a`, `-`, `z`,
`Ã`, `€`, `-`, `Ã`, `¿`, which contain the reversed range `€-Ã`
(U+20AC > U+00C3).
-/

/-- A token: a Python string, modelled as its list of Unicode scalar values. -/
abbrev Token := List Char

/-- Unicode scalar values determine the character. -/
theorem char_toNat_injective {a b : Char} (h : a.toNat = b.toNat) : a = b := by
  cases a; cases b
  simp [Char.toNat, UInt32.toNat] at h
  congr 1
  exact UInt32.eq_of_toBitVec_eq (BitVec.toNat_injective h)

/-- Building a character from a scalar value below the surrogate block and
reading the value back is the identity. -/
theorem char_toNat_ofNat {n : Nat} (h : n < 55296) : (Char.ofNat n).toNat = n := by
  rw [Char.ofNat, dif_pos (Or.inl h)]
  simp [Char.ofNatAux, Char.toNat, UInt32.toNat]

/-- Parse the body of a regex character class (the text between `[` and `]`)
into a list of inclusive codepoint ranges, as Python's `sre_parse` does for
bodies made of plain characters and `-`: a character followed by `-` and a
further character forms a range, and a range whose first bound exceeds its
second is rejected with `re.error: bad character range`; any other character
stands for itself.  Neither script's class body contains `]`, `\` or a
trailing `-`, so this fragment covers both. -/
def parseClassRanges : List Char → Except String (List (Char × Char))
  | [] => Except.ok []
  | a :: '-' :: b :: rest =>
    if a.toNat ≤ b.toNat then
      (parseClassRanges rest).map (fun rs => (a, b) :: rs)
    else
      Except.error "bad character range"
  | a :: rest => (parseClassRanges rest).map (fun rs => (a, a) :: rs)

/-- Membership of a character in a parsed character class. -/
def rangesMatch (rs : List (Char × Char)) (c : Char) : Bool :=
  rs.any fun r => r.1.toNat ≤ c.toNat && c.toNat ≤ r.2.toNat

/-- Worker for `re_findall_class`: `acc` is the run of matching characters
currently being read, in input order. -/
def runsAux (p : Char → Bool) : List Char → List Char → List (List Char)
  | [], acc => if acc = [] then [] else [acc]
  | c :: cs, acc =>
    if p c then runsAux p cs (acc ++ [c])
    else if acc = [] then runsAux p cs []
    else acc :: runsAux p cs []

/-- `re.findall` of a pattern `class+`: the maximal runs of characters
matching the class, in input order.  Every non-matching character separates
runs and is discarded. -/
def re_findall_class (p : Char → Bool) (text : List Char) : List (List Char) :=
  runsAux p text []

/-- Python `str.lower`, restricted to the Basic Latin and Latin-1 Supplement
blocks (every character either script's class can match lies there): the
uppercase letters `A`–`Z` (U+0041–U+005A) and `À`–`Þ` (U+00C0–U+00DE)
excepting the multiplication sign `×` (U+00D7) map to codepoint + 32; every
other character of the blocks is a fixed point of `str.lower`. -/
def pyLowerChar (c : Char) : Char :=
  if (0x41 ≤ c.toNat ∧ c.toNat ≤ 0x5A) ∨
      (0xC0 ≤ c.toNat ∧ c.toNat ≤ 0xDE ∧ c.toNat ≠ 0xD7) then
    Char.ofNat (c.toNat + 32)
  else c

namespace FalseConfidence

/-- The character-class body of the regex literal in `tokenize` of
`ocr_middle_dutch_false_confidence_list.py`, line 38: `[A-Za-zÀ-ÿ]+`. -/
def classBody : List Char := ['A', '-', 'Z', 'a', '-', 'z', 'À', '-', 'ÿ']

/-- `tokenize` of `ocr_middle_dutch_false_confidence_list.py` (lines 31-39):
`re.findall` of the class pattern, then `str.lower` on every match.  The
value is `Except`-typed because `re.findall` first compiles its pattern and
pattern compilation can raise. -/
def tokenize (text : List Char) : Except String (List Token) :=
  (parseClassRanges classBody).map fun rs =>
    (re_findall_class (rangesMatch rs) text).map fun t => t.map pyLowerChar

/-- The ranges this script's class body parses to. -/
def classRanges : List (Char × Char) := [('A', 'Z'), ('a', 'z'), ('À', 'ÿ')]

/-- The token list `tokenize` returns (its pattern compiles: see
`tokenize_eq_tokens`). -/
def tokens (text : List Char) : List Token :=
  (re_findall_class (rangesMatch classRanges) text).map fun t => t.map pyLowerChar

theorem parse_classBody : parseClassRanges classBody = Except.ok classRanges := by
  rfl

theorem tokenize_eq_tokens (text : List Char) :
    tokenize text = Except.ok (tokens text) := by
  unfold tokenize
  rw [parse_classBody]
  rfl

end FalseConfidence

namespace LexicalConfidence

/-- The character-class body of the regex literal in `tokenize` of
`ocr_middle_dutch_lexical_confidence.py`, line 35, exactly as the stored
(double-encoded) source file decodes: bytes
C3 83, E2 82 AC, 2D, C3 83, C2 BF follow `A-Za-z`, i.e. the characters
`Ã` `€` `-` `Ã` `¿` — the intended `À-ÿ` corrupted into a literal `Ã`
followed by the reversed range `€-Ã` and a literal `¿`. -/
def classBody : List Char := ['A', '-', 'Z', 'a', '-', 'z', 'Ã', '€', '-', 'Ã', '¿']

/-- `tokenize` of `ocr_middle_dutch_lexical_confidence.py` (lines 25-36). -/
def tokenize (text : List Char) : Except String (List Token) :=
  (parseClassRanges classBody).map fun rs =>
    (re_findall_class (rangesMatch rs) text).map fun t => t.map pyLowerChar

theorem parse_classBody_fails :
    parseClassRanges classBody = Except.error "bad character range" := by
  rfl

theorem tokenize_raises (text : List Char) :
    tokenize text = Except.error "bad character range" := by
  unfold tokenize
  rw [parse_classBody_fails]
  rfl

end LexicalConfidence

/-! A `collections.Counter` over tokens, represented by the multiset of all
counted occurrences, kept as a list. -/

/-- `Counter.update(ts)`: add one occurrence per listed token. -/
def counter_update (c : List Token) (ts : List Token) : List Token := c ++ ts

/-- `counter.get(w, 0)`: the multiplicity of `w`. -/
def counter_get (c : List Token) (w : Token) : Nat := c.count w

/-- `sum(counter.values())`: the total of all counts. -/
def counter_total (c : List Token) : Nat := c.length

/-- `list(counter.values())`: one multiplicity per distinct token. -/
def counter_values (c : List Token) : List Nat :=
  c.dedup.map fun w => c.count w

/-- `max(counter.values())` for a non-empty counter; `0` on the empty counter,
on which Python's `max` would raise (the scripts only reach `max` behind a
non-zero count, hence on a non-empty counter: see
`LexicalConfidence.compute_lexical_confidence`). -/
def counter_max (c : List Token) : Nat :=
  (counter_values c).foldr Nat.max 0

/-- `counter.items()`: each distinct token with its multiplicity.  (Python
yields keys in first-insertion order, `List.dedup` keeps another occurrence
order; both scripts re-sort the items by a key that is injective on them, so
every claim below is insensitive to the enumeration order.) -/
def counter_items (c : List Token) : List (Token × Nat) :=
  c.dedup.map fun w => (w, c.count w)

/-! Python string comparison: lexicographic on Unicode scalar values.  Both
scripts sort report rows with tuple keys whose final component is the token
string, so the embedding needs `<` and `≤` on `Token`. -/

/-- Python `s1 < s2` on strings. -/
def strLt : List Char → List Char → Bool
  | _, [] => false
  | [], _ :: _ => true
  | a :: as, b :: bs =>
    if a.toNat < b.toNat then true
    else if b.toNat < a.toNat then false
    else strLt as bs

/-- Python `s1 <= s2` on strings. -/
def strLe : List Char → List Char → Bool
  | [], _ => true
  | _ :: _, [] => false
  | a :: as, b :: bs =>
    if a.toNat < b.toNat then true
    else if b.toNat < a.toNat then false
    else strLe as bs

namespace LexicalConfidence

/-- `compute_lexical_confidence` of `ocr_middle_dutch_lexical_confidence.py`
(lines 77-102): `0.0` for a token with reference count `0`; otherwise the
log-scaled frequency ratio, with the dead guard `max_freq <= 0` kept from
the source.  `math.log` and float division are modelled over `ℝ`.  The
Python `max(ref_counts.values())` is `counter_max`, reached only when
`freq ≠ 0`, hence only on a non-empty counter, where the two agree. -/
noncomputable def compute_lexical_confidence (ref_counts : List Token) (word : Token) : ℝ :=
  let freq := counter_get ref_counts word
  if freq = 0 then 0
  else
    let max_freq := counter_max ref_counts
    if max_freq ≤ 0 then 0
    else Real.log (1 + (freq : ℝ)) / Real.log (1 + (max_freq : ℝ))

/-- One row of the full confidence report, named after the CSV columns
(lines 126-136 of the script).  The `lexical_confidence` column is
`compute_lexical_confidence ref_counts word` (a float the script formats to
4 decimal places); being a real it is kept out of the row record and
related to the row by the claim about `in_reference`. -/
structure ConfRow where
  word : Token
  frequency_in_target : Nat
  frequency_in_reference : Nat
  in_reference : Bool
deriving DecidableEq

/-- The sort key of `build_report` (lines 122-125):
`key=lambda wf: (-wf[1], wf[0])`, i.e. item `a` precedes item `b` when `a`
has the larger count, or equal counts and `a.1 <= b.1` as strings. -/
def reportKeyLe (a b : Token × Nat) : Bool :=
  if a.2 = b.2 then strLe a.1 b.1 else decide (b.2 < a.2)

/-- The row assembly of `build_report` (lines 119-136): the target counter's
items sorted by `(-count, word)`, each decorated with its reference
frequency and the attested flag `freq_ref > 0`.  It is parametrised by the
two token multisets; in the script itself `tokenize` raises on every input
(see `tokenize_raises`), so the script never actually reaches this step. -/
def build_report_rows (ref_counts : List Token) (target_tokens : List Token) : List ConfRow :=
  (List.insertionSort (fun a b => reportKeyLe a b = true) (counter_items target_tokens)).map
    fun wf =>
      { word := wf.1
        frequency_in_target := wf.2
        frequency_in_reference := counter_get ref_counts wf.1
        in_reference := decide (0 < counter_get ref_counts wf.1) }

end LexicalConfidence

namespace FalseConfidence

/-- `build_reference_counts` of `ocr_middle_dutch_false_confidence_list.py`
(lines 42-73), applied to the decoded contents of the corpus files that
survive the extension allow-list and the per-file read-error skipping (both
I/O): start from the empty counter and `update` with each file's tokens. -/
def build_reference_counts (ref_texts : List (List Char)) : List Token :=
  ref_texts.foldl (fun c text => counter_update c (tokens text)) []

/-- `is_roman_numeral` of `ocr_middle_dutch_false_confidence_list.py`
(lines 76-87): `re.fullmatch(r"[ivxlcdmIVXLCDM]+", word)`, i.e. the word is
non-empty and every character is one of the fourteen listed letters. -/
def is_roman_numeral (word : Token) : Bool :=
  !word.isEmpty && word.all fun ch =>
    ch ∈ ['i', 'v', 'x', 'l', 'c', 'd', 'm', 'I', 'V', 'X', 'L', 'C', 'D', 'M']

/-- One row of the false-confidence report, named after its CSV columns. -/
structure FCRow where
  word : Token
  frequency_in_target : Nat
deriving DecidableEq

/-- The sort key of `build_false_confidence_list` (line 123):
`key=lambda r: (r["frequency_in_target"], r["word"])`. -/
def fcKeyLe (a b : FCRow) : Bool :=
  if a.frequency_in_target = b.frequency_in_target then strLe a.word b.word
  else decide (a.frequency_in_target < b.frequency_in_target)

/-- Steps 1-4 of `build_false_confidence_list` (lines 90-124): build the
reference counter from the corpus texts, tokenize and count the target
text, keep each target item whose word has reference count 0 and is not a
Roman numeral, and sort the rows by `(frequency_in_target, word)`. -/
def build_false_confidence_rows (ref_texts : List (List Char)) (target_text : List Char) :
    List FCRow :=
  let ref_counts := build_reference_counts ref_texts
  let target_counts := tokens target_text
  let rows := (counter_items target_counts).filterMap fun wf =>
    if 0 < counter_get ref_counts wf.1 then none
    else if is_roman_numeral wf.1 then none
    else some { word := wf.1, frequency_in_target := wf.2 }
  List.insertionSort (fun a b => fcKeyLe a b = true) rows

end FalseConfidence

/-! Order properties of the Python string comparison and of the two sort
keys, feeding `List.sorted_insertionSort`. -/

theorem strLe_total : ∀ a b : List Char, strLe a b = true ∨ strLe b a = true
  | [], _ => Or.inl rfl
  | _ :: _, [] => Or.inr rfl
  | a :: as, b :: bs => by
    by_cases h1 : a.toNat < b.toNat
    · left; simp [strLe, h1]
    · by_cases h2 : b.toNat < a.toNat
      · right; simp [strLe, h2]
      · rcases strLe_total as bs with h | h
        · left; simp [strLe, h1, h2, h]
        · right; simp [strLe, h1, h2, h]

theorem strLe_trans : ∀ a b c : List Char,
    strLe a b = true → strLe b c = true → strLe a c = true
  | [], _, _, _, _ => rfl
  | _ :: _, [], _, h, _ => by simp [strLe] at h
  | _ :: _, _ :: _, [], _, h => by simp [strLe] at h
  | a :: as, b :: bs, c :: cs, h1, h2 => by
    simp only [strLe] at h1 h2 ⊢
    by_cases hab : a.toNat < b.toNat <;> by_cases hbc : b.toNat < c.toNat <;>
      by_cases hba : b.toNat < a.toNat <;> by_cases hcb : c.toNat < b.toNat <;>
        simp [hab, hbc, hba, hcb] at h1 h2 ⊢ <;>
          first
            | omega
            | (have hac : ¬ a.toNat < c.toNat := by omega
               have hca : ¬ c.toNat < a.toNat := by omega
               simp [hac, hca]
               first
                 | exact strLe_trans as bs cs h1 h2
                 | exact ⟨by omega, strLe_trans as bs cs h1 h2⟩)

theorem strLt_of_strLe_of_ne : ∀ a b : List Char,
    strLe a b = true → a ≠ b → strLt a b = true
  | [], [], _, hne => absurd rfl hne
  | [], _ :: _, _, _ => rfl
  | _ :: _, [], h, _ => by simp [strLe] at h
  | a :: as, b :: bs, h, hne => by
    by_cases hab : a.toNat < b.toNat
    · simp [strLt, hab]
    · by_cases hba : b.toNat < a.toNat
      · simp [strLe, hab, hba] at h
      · have hab' : a = b := char_toNat_injective (by omega)
        subst hab'
        simp only [strLe, if_neg hab, if_neg hba] at h
        simp only [strLt, if_neg hab, if_neg hba]
        refine strLt_of_strLe_of_ne as bs h (fun hh => hne ?_)
        rw [hh]

namespace LexicalConfidence

instance reportKeyLe_isTotal :
    IsTotal (Token × Nat) (fun a b => reportKeyLe a b = true) := by
  constructor
  intro a b
  unfold reportKeyLe
  by_cases h : a.2 = b.2
  · simp only [h, if_pos rfl, if_pos h.symm]
    exact strLe_total a.1 b.1
  · have h' : b.2 ≠ a.2 := fun hh => h hh.symm
    simp only [if_neg h, if_neg h', decide_eq_true_eq]
    omega

instance reportKeyLe_isTrans :
    IsTrans (Token × Nat) (fun a b => reportKeyLe a b = true) := by
  constructor
  intro a b c h1 h2
  unfold reportKeyLe at h1 h2 ⊢
  by_cases hab : a.2 = b.2 <;> by_cases hbc : b.2 = c.2 <;>
    simp only [hab, hbc, if_pos, if_neg, ite_true, ite_false, decide_eq_true_eq] at h1 h2 ⊢ <;>
      first
        | (simp only [if_pos (hab.trans hbc), decide_eq_true_eq] at *
           exact strLe_trans _ _ _ h1 h2)
        | (simp only [if_neg (show a.2 ≠ c.2 by omega), decide_eq_true_eq] at *
           omega)

end LexicalConfidence

namespace FalseConfidence

instance fcKeyLe_isTotal : IsTotal FCRow (fun a b => fcKeyLe a b = true) := by
  constructor
  intro a b
  unfold fcKeyLe
  by_cases h : a.frequency_in_target = b.frequency_in_target
  · simp only [h, if_pos rfl, if_pos h.symm]
    exact strLe_total a.word b.word
  · have h' : b.frequency_in_target ≠ a.frequency_in_target := fun hh => h hh.symm
    simp only [if_neg h, if_neg h', decide_eq_true_eq]
    omega

instance fcKeyLe_isTrans : IsTrans FCRow (fun a b => fcKeyLe a b = true) := by
  constructor
  intro a b c h1 h2
  unfold fcKeyLe at h1 h2 ⊢
  by_cases hab : a.frequency_in_target = b.frequency_in_target <;>
    by_cases hbc : b.frequency_in_target = c.frequency_in_target <;>
      simp only [hab, hbc, if_pos, if_neg, ite_true, ite_false, decide_eq_true_eq] at h1 h2 ⊢ <;>
        first
          | (simp only [if_pos (hab.trans hbc), decide_eq_true_eq] at *
             exact strLe_trans _ _ _ h1 h2)
          | (simp only [if_neg
                (show a.frequency_in_target ≠ c.frequency_in_target by omega),
                decide_eq_true_eq] at *
             omega)

end FalseConfidence

/-! Structure of the runs the tokenizer emits. -/

theorem runsAux_mem : ∀ (p : Char → Bool) (cs acc : List Char),
    (∀ x ∈ acc, p x = true) →
    ∀ t ∈ runsAux p cs acc, t ≠ [] ∧ ∀ x ∈ t, p x = true
  | p, [], acc, hacc => by
    intro t ht
    unfold runsAux at ht
    by_cases h : acc = []
    · simp [h] at ht
    · rw [if_neg h] at ht
      rcases List.mem_singleton.mp ht with rfl
      exact ⟨h, hacc⟩
  | p, c :: cs, acc, hacc => by
    intro t ht
    unfold runsAux at ht
    by_cases hc : p c = true
    · rw [if_pos hc] at ht
      refine runsAux_mem p cs (acc ++ [c]) ?_ t ht
      intro x hx
      rcases List.mem_append.mp hx with h | h
      · exact hacc x h
      · rcases List.mem_singleton.mp h with rfl
        exact hc
    · rw [if_neg hc] at ht
      by_cases h0 : acc = []
      · rw [if_pos h0] at ht
        exact runsAux_mem p cs [] (by simp) t ht
      · rw [if_neg h0] at ht
        rcases List.mem_cons.mp ht with rfl | ht
        · exact ⟨h0, hacc⟩
        · exact runsAux_mem p cs [] (by simp) t ht

/-- The alphabet of the characters that can occur in a token of
`FalseConfidence.tokens`: lowercase `a`–`z`, the multiplication sign `×`
(U+00D7), or `ß`–`ÿ` (U+00DF–U+00FF, which contains the division sign `÷`,
U+00F7). -/
def lowered_class_char (c : Char) : Bool :=
  decide ((0x61 ≤ c.toNat ∧ c.toNat ≤ 0x7A) ∨ c.toNat = 0xD7 ∨
    (0xDF ≤ c.toNat ∧ c.toNat ≤ 0xFF))

/-- Stated from the spec's words, for comparison with the code: a lowercase
alphabetic character of the Basic Latin or Latin-1 Supplement block.  Per
Unicode these are `a`–`z`, `ª` (U+00AA), `µ` (U+00B5), `º` (U+00BA) and
`ß`–`ÿ` excepting the division sign `÷` (U+00F7); the multiplication sign
`×` (U+00D7) and `÷` are Sm symbols, not letters. -/
def latin1_lower_alpha (c : Char) : Bool :=
  decide ((0x61 ≤ c.toNat ∧ c.toNat ≤ 0x7A) ∨ c.toNat = 0xAA ∨ c.toNat = 0xB5 ∨
    c.toNat = 0xBA ∨ (0xDF ≤ c.toNat ∧ c.toNat ≤ 0xFF ∧ c.toNat ≠ 0xF7))

theorem rangesMatch_classRanges (c : Char) :
    rangesMatch FalseConfidence.classRanges c = true ↔
      (65 ≤ c.toNat ∧ c.toNat ≤ 90) ∨ (97 ≤ c.toNat ∧ c.toNat ≤ 122) ∨
        (192 ≤ c.toNat ∧ c.toNat ≤ 255) := by
  simp [rangesMatch, FalseConfidence.classRanges,
    show Char.toNat 'A' = 65 from rfl, show Char.toNat 'Z' = 90 from rfl,
    show Char.toNat 'a' = 97 from rfl, show Char.toNat 'z' = 122 from rfl,
    show Char.toNat 'À' = 192 from rfl, show Char.toNat 'ÿ' = 255 from rfl]

theorem pyLowerChar_lowered (c : Char)
    (h : rangesMatch FalseConfidence.classRanges c = true) :
    lowered_class_char (pyLowerChar c) = true := by
  rw [rangesMatch_classRanges] at h
  unfold pyLowerChar
  by_cases hcond : (0x41 ≤ c.toNat ∧ c.toNat ≤ 0x5A) ∨
      (0xC0 ≤ c.toNat ∧ c.toNat ≤ 0xDE ∧ c.toNat ≠ 0xD7)
  · rw [if_pos hcond]
    have hlt : c.toNat + 32 < 55296 := by omega
    simp only [lowered_class_char, char_toNat_ofNat hlt, decide_eq_true_eq]
    omega
  · rw [if_neg hcond]
    push_neg at hcond
    simp only [lowered_class_char, decide_eq_true_eq]
    omega

theorem mem_tokens (text : List Char) :
    ∀ t ∈ FalseConfidence.tokens text,
      t ≠ [] ∧ ∀ c ∈ t, lowered_class_char c = true := by
  intro t ht
  unfold FalseConfidence.tokens re_findall_class at ht
  rcases List.mem_map.mp ht with ⟨r, hr, rfl⟩
  have hrun := runsAux_mem _ text [] (by simp) r hr
  refine ⟨by simpa using hrun.1, ?_⟩
  intro c hc
  rcases List.mem_map.mp hc with ⟨x, hx, rfl⟩
  exact pyLowerChar_lowered x (hrun.2 x hx)

/-! The maximum of the counter values bounds every multiplicity. -/

theorem le_foldr_max : ∀ {n : Nat} {l : List Nat}, n ∈ l → n ≤ l.foldr Nat.max 0
  | n, a :: l, h => by
    rcases List.mem_cons.mp h with rfl | h
    · exact Nat.le_max_left _ _
    · exact Nat.le_trans (le_foldr_max h) (Nat.le_max_right _ _)

theorem counter_get_le_max (c : List Token) (w : Token) :
    counter_get c w ≤ counter_max c := by
  by_cases h : counter_get c w = 0
  · simp [h]
  · have hw : w ∈ c := List.count_pos_iff.mp (Nat.pos_of_ne_zero h)
    have hv : c.count w ∈ counter_values c :=
      List.mem_map_of_mem _ (List.mem_dedup.mpr hw)
    exact le_foldr_max hv

namespace LexicalConfidence

theorem clc_of_count_zero {ref : List Token} {w : Token}
    (h : counter_get ref w = 0) : compute_lexical_confidence ref w = 0 := by
  simp [compute_lexical_confidence, h]

theorem counter_max_pos {ref : List Token} {w : Token}
    (h : counter_get ref w ≠ 0) : 0 < counter_max ref :=
  Nat.lt_of_lt_of_le (Nat.pos_of_ne_zero h) (counter_get_le_max ref w)

theorem clc_formula {ref : List Token} {w : Token}
    (h : counter_get ref w ≠ 0) :
    compute_lexical_confidence ref w =
      Real.log (1 + (counter_get ref w : ℝ)) /
        Real.log (1 + (counter_max ref : ℝ)) := by
  have hm : ¬ counter_max ref ≤ 0 := by
    have := counter_max_pos h
    omega
  simp [compute_lexical_confidence, h, hm]

theorem clc_pos {ref : List Token} {w : Token}
    (h : 0 < counter_get ref w) : 0 < compute_lexical_confidence ref w := by
  rw [clc_formula (Nat.pos_iff_ne_zero.mp h)]
  have hm := counter_max_pos (Nat.pos_iff_ne_zero.mp h)
  refine div_pos (Real.log_pos ?_) (Real.log_pos ?_)
  · have : (1 : ℝ) ≤ (counter_get ref w : ℝ) := by exact_mod_cast h
    linarith
  · have : (1 : ℝ) ≤ (counter_max ref : ℝ) := by exact_mod_cast hm
    linarith

theorem clc_nonneg (ref : List Token) (w : Token) :
    0 ≤ compute_lexical_confidence ref w := by
  by_cases h : counter_get ref w = 0
  · rw [clc_of_count_zero h]
  · exact le_of_lt (clc_pos (Nat.pos_of_ne_zero h))

theorem clc_le_one (ref : List Token) (w : Token) :
    compute_lexical_confidence ref w ≤ 1 := by
  by_cases h : counter_get ref w = 0
  · rw [clc_of_count_zero h]; norm_num
  · rw [clc_formula h]
    have hm := counter_max_pos h
    have hlog : (0 : ℝ) < Real.log (1 + (counter_max ref : ℝ)) := by
      refine Real.log_pos ?_
      have : (1 : ℝ) ≤ (counter_max ref : ℝ) := by exact_mod_cast hm
      linarith
    rw [div_le_one hlog]
    refine Real.log_le_log (by positivity) ?_
    have : counter_get ref w ≤ counter_max ref := counter_get_le_max ref w
    have : (counter_get ref w : ℝ) ≤ (counter_max ref : ℝ) := by exact_mod_cast this
    linarith

theorem clc_eq_one {ref : List Token} {w : Token}
    (h0 : 0 < counter_get ref w) (hmax : counter_get ref w = counter_max ref) :
    compute_lexical_confidence ref w = 1 := by
  rw [clc_formula (Nat.pos_iff_ne_zero.mp h0), hmax]
  have hm : 0 < counter_max ref := hmax ▸ h0
  refine div_self (ne_of_gt (Real.log_pos ?_))
  have : (1 : ℝ) ≤ (counter_max ref : ℝ) := by exact_mod_cast hm
  linarith

theorem clc_strict_mono {ref : List Token} {t1 t2 : Token}
    (h2 : 0 < counter_get ref t2)
    (h12 : counter_get ref t2 < counter_get ref t1) :
    compute_lexical_confidence ref t2 < compute_lexical_confidence ref t1 := by
  have h1 : 0 < counter_get ref t1 := Nat.lt_trans h2 h12
  rw [clc_formula (Nat.pos_iff_ne_zero.mp h1), clc_formula (Nat.pos_iff_ne_zero.mp h2)]
  have hm := counter_max_pos (Nat.pos_iff_ne_zero.mp h1)
  have hlog : (0 : ℝ) < Real.log (1 + (counter_max ref : ℝ)) := by
    refine Real.log_pos ?_
    have : (1 : ℝ) ≤ (counter_max ref : ℝ) := by exact_mod_cast hm
    linarith
  rw [div_lt_div_iff_of_pos_right hlog]
  refine Real.log_lt_log (by positivity) ?_
  have : (counter_get ref t2 : ℝ) < (counter_get ref t1 : ℝ) := by exact_mod_cast h12
  linarith

end LexicalConfidence

/-! The reference-counter build as one flattened token multiset. -/

theorem foldl_update_eq_append :
    ∀ (fs : List (List Char)) (init : List Token),
      fs.foldl (fun c text => counter_update c (FalseConfidence.tokens text)) init =
        init ++ (fs.map FalseConfidence.tokens).flatten
  | [], init => by simp
  | f :: fs, init => by
    simp only [List.foldl_cons, List.map_cons, List.flatten_cons]
    rw [foldl_update_eq_append fs]
    simp [counter_update]

theorem build_reference_counts_eq_flatten (fs : List (List Char)) :
    FalseConfidence.build_reference_counts fs = (fs.map FalseConfidence.tokens).flatten := by
  unfold FalseConfidence.build_reference_counts
  rw [foldl_update_eq_append]
  rfl

/-! Distinctness of the words of the sorted report rows, used to strengthen
the key order `≤` into the strict claimed order. -/

theorem counter_items_fst_pairwise (c : List Token) :
    (counter_items c).Pairwise fun a b => a.1 ≠ b.1 := by
  unfold counter_items
  exact List.Pairwise.map _ (fun a b h => h) (List.nodup_dedup c)

theorem pairwise_insertionSort_of_pairwise {α : Type} {r : α → α → Prop}
    [DecidableRel r] {S : α → α → Prop} (hsymm : ∀ {x y : α}, S x y → S y x)
    {l : List α} (h : l.Pairwise S) : (List.insertionSort r l).Pairwise S :=
  ((List.perm_insertionSort r l).pairwise_iff hsymm).mpr h

/-! The claims. -/

/-- Claim C1: the two scripts' `tokenize` functions are NOT extensionally
equal, because the regex literal of `ocr_middle_dutch_lexical_confidence.py`
is stored corrupted (see `LexicalConfidence.classBody`): on the input
`"die"` (as on every input) that script's `tokenize` raises
`re.error: bad character range` while the one of
`ocr_middle_dutch_false_confidence_list.py` returns `["die"]`. -/
theorem c1_tokenizers_not_equal :
    LexicalConfidence.tokenize ['d', 'i', 'e'] = Except.error "bad character range" ∧
    FalseConfidence.tokenize ['d', 'i', 'e'] = Except.ok [['d', 'i', 'e']] :=
  ⟨LexicalConfidence.tokenize_raises _, by
    rw [FalseConfidence.tokenize_eq_tokens]
    rfl⟩

/-- Claim C4: `tokenize` of `ocr_middle_dutch_false_confidence_list.py` is
total — on every input it returns a token list — but `tokenize` of
`ocr_middle_dutch_lexical_confidence.py` raises on every input, the empty
string included, because its corrupted pattern is rejected at compile time;
the claim's totality fails for the second script. -/
theorem c4_tokenize_totality :
    (∀ text : List Char,
      FalseConfidence.tokenize text = Except.ok (FalseConfidence.tokens text)) ∧
    LexicalConfidence.tokenize [] = Except.error "bad character range" :=
  ⟨FalseConfidence.tokenize_eq_tokens, LexicalConfidence.tokenize_raises []⟩

/-- Claim C2: the scorer contract of `compute_lexical_confidence`: exactly
`0` on a token with reference count `0`; otherwise `0` if the maximum count
`M ≤ 0` and `ln(1 + f) / ln(1 + M)` else; the value always lies in
`[0, 1]`; and the empty reference model yields `0` for every token (the
guard `freq == 0` returns before `max()` is ever taken, so the empty model
raises nothing). -/
theorem c2_scorer_contract (ref : List Token) (w : Token) :
    (counter_get ref w = 0 → LexicalConfidence.compute_lexical_confidence ref w = 0) ∧
    (counter_get ref w ≠ 0 →
      LexicalConfidence.compute_lexical_confidence ref w =
        if counter_max ref ≤ 0 then 0
        else Real.log (1 + (counter_get ref w : ℝ)) /
          Real.log (1 + (counter_max ref : ℝ))) ∧
    0 ≤ LexicalConfidence.compute_lexical_confidence ref w ∧
    LexicalConfidence.compute_lexical_confidence ref w ≤ 1 ∧
    (ref = [] → LexicalConfidence.compute_lexical_confidence ref w = 0) := by
  refine ⟨fun h => LexicalConfidence.clc_of_count_zero h, fun h => ?_,
    LexicalConfidence.clc_nonneg ref w, LexicalConfidence.clc_le_one ref w, fun h => ?_⟩
  · simp [LexicalConfidence.compute_lexical_confidence, h]
  · subst h
    exact LexicalConfidence.clc_of_count_zero (by simp [counter_get])

/-- Witness for `c2_scorer_contract` at the model `["a", "b"]`. -/
theorem c2_scorer_contract_witness :
    LexicalConfidence.compute_lexical_confidence [['a'], ['b']] ['c'] = 0 ∧
    (0 : ℝ) ≤ LexicalConfidence.compute_lexical_confidence [['a'], ['b']] ['a'] ∧
    LexicalConfidence.compute_lexical_confidence [['a'], ['b']] ['a'] ≤ 1 :=
  ⟨(c2_scorer_contract [['a'], ['b']] ['c']).1 (by decide),
    (c2_scorer_contract [['a'], ['b']] ['a']).2.2.1,
    (c2_scorer_contract [['a'], ['b']] ['a']).2.2.2.1⟩

/-- Claim C8: the token holding the model's maximum count scores exactly
`1`; every attested token scores strictly more than `0`; and the score is
strictly monotone in the reference count. -/
theorem c8_scorer_algebra (ref : List Token) :
    (∀ w, 0 < counter_get ref w → counter_get ref w = counter_max ref →
      LexicalConfidence.compute_lexical_confidence ref w = 1) ∧
    (∀ w, 0 < counter_get ref w →
      0 < LexicalConfidence.compute_lexical_confidence ref w) ∧
    (∀ t1 t2, 0 < counter_get ref t2 → counter_get ref t2 < counter_get ref t1 →
      LexicalConfidence.compute_lexical_confidence ref t2 <
        LexicalConfidence.compute_lexical_confidence ref t1) :=
  ⟨fun _ h0 hm => LexicalConfidence.clc_eq_one h0 hm,
    fun _ h => LexicalConfidence.clc_pos h,
    fun _ _ h2 h12 => LexicalConfidence.clc_strict_mono h2 h12⟩

/-- Witness for `c8_scorer_algebra` at the model `["a", "a", "b"]`
(counts: `a ↦ 2 = max`, `b ↦ 1`). -/
theorem c8_scorer_algebra_witness :
    LexicalConfidence.compute_lexical_confidence [['a'], ['a'], ['b']] ['a'] = 1 ∧
    0 < LexicalConfidence.compute_lexical_confidence [['a'], ['a'], ['b']] ['b'] ∧
    LexicalConfidence.compute_lexical_confidence [['a'], ['a'], ['b']] ['b'] <
      LexicalConfidence.compute_lexical_confidence [['a'], ['a'], ['b']] ['a'] :=
  ⟨(c8_scorer_algebra [['a'], ['a'], ['b']]).1 ['a'] (by decide) (by decide),
    (c8_scorer_algebra [['a'], ['a'], ['b']]).2.1 ['b'] (by decide),
    (c8_scorer_algebra [['a'], ['a'], ['b']]).2.2 ['a'] ['b'] (by decide) (by decide)⟩

/-- Claim C10: in every row of the full confidence report the
`in_reference` flag holds iff the row's lexical-confidence value (before
decimal formatting), i.e. `compute_lexical_confidence` at the row's word,
is strictly positive. -/
theorem c10_in_reference_iff_score_pos (ref target_tokens : List Token)
    (r : LexicalConfidence.ConfRow)
    (h : r ∈ LexicalConfidence.build_report_rows ref target_tokens) :
    r.in_reference = true ↔
      0 < LexicalConfidence.compute_lexical_confidence ref r.word := by
  unfold LexicalConfidence.build_report_rows at h
  rcases List.mem_map.mp h with ⟨wf, _, rfl⟩
  show decide (0 < counter_get ref wf.1) = true ↔
    0 < LexicalConfidence.compute_lexical_confidence ref wf.1
  rw [decide_eq_true_eq]
  constructor
  · exact fun hpos => LexicalConfidence.clc_pos hpos
  · intro hpos
    by_contra hzero
    rw [LexicalConfidence.clc_of_count_zero (by omega)] at hpos
    exact lt_irrefl 0 hpos

/-- Witness for `c10_in_reference_iff_score_pos` on the one-row report of
target `["a"]` against model `["a"]`. -/
theorem c10_in_reference_witness :
    (⟨['a'], 1, 1, true⟩ : LexicalConfidence.ConfRow) ∈
      LexicalConfidence.build_report_rows [['a']] [['a']] ∧
    ((⟨['a'], 1, 1, true⟩ : LexicalConfidence.ConfRow).in_reference = true ↔
      0 < LexicalConfidence.compute_lexical_confidence [['a']] ['a']) :=
  ⟨by decide, c10_in_reference_iff_score_pos [['a']] [['a']] _ (by decide)⟩

/-- Claim C5, counterexample: on the input `"×"` the tokenizer of
`ocr_middle_dutch_false_confidence_list.py` produces the token `"×"`, and
the multiplication sign `×` (U+00D7) is not a lowercase alphabetic
character of the Basic Latin or Latin-1 Supplement block (it is an Sm
symbol): the regex range `À-ÿ` admits it, so a produced token need not
consist solely of alphabetic characters. -/
theorem c5_counterexample :
    FalseConfidence.tokens ['×'] = [['×']] ∧ latin1_lower_alpha '×' = false := by
  exact ⟨rfl, rfl⟩

/-- Claim C5 as amended: every produced token is non-empty, and each of its
characters is either a lowercase alphabetic character of the supported
blocks or one of the two non-letter signs `×` (U+00D7) and `÷` (U+00F7)
that the class range `À-ÿ` also admits; in particular digits, punctuation
and uppercase letters never appear in a token. -/
theorem c5_amended_token_alphabet (text : List Char) :
    ∀ t ∈ FalseConfidence.tokens text,
      t ≠ [] ∧ ∀ c ∈ t, (latin1_lower_alpha c = true ∨ c = '×' ∨ c = '÷') := by
  intro t ht
  obtain ⟨hne, hall⟩ := mem_tokens text t ht
  refine ⟨hne, fun c hc => ?_⟩
  have hcc := hall c hc
  rw [lowered_class_char, decide_eq_true_eq] at hcc
  rw [latin1_lower_alpha, decide_eq_true_eq]
  rcases hcc with h | h | h
  · left
    left
    omega
  · right
    left
    exact char_toNat_injective (show c.toNat = Char.toNat '×' by rw [h]; rfl)
  · by_cases h7 : c.toNat = 0xF7
    · right
      right
      exact char_toNat_injective (show c.toNat = Char.toNat '÷' by rw [h7]; rfl)
    · left
      right
      omega

/-- Witness for `c5_amended_token_alphabet` at the input `"Ab3"`
(tokens: `["ab"]`). -/
theorem c5_amended_witness :
    ['a', 'b'] ∈ FalseConfidence.tokens ['A', 'b', '3'] ∧
    (['a', 'b'] ≠ ([] : Token) ∧ ∀ c ∈ ['a', 'b'],
      (latin1_lower_alpha c = true ∨ c = '×' ∨ c = '÷')) :=
  ⟨by decide, c5_amended_token_alphabet ['A', 'b', '3'] ['a', 'b'] (by decide)⟩

/-- Claim C6: the rows of the full confidence report are ordered by
descending target frequency, ties broken by ascending lexicographic order
of the token string (word strings are pairwise distinct, so every tie-break
comparison is strict). -/
theorem c6_full_report_sorted (ref target_tokens : List Token) :
    (LexicalConfidence.build_report_rows ref target_tokens).Pairwise fun r1 r2 =>
      r2.frequency_in_target < r1.frequency_in_target ∨
        (r1.frequency_in_target = r2.frequency_in_target ∧
          strLt r1.word r2.word = true) := by
  unfold LexicalConfidence.build_report_rows
  rw [List.pairwise_map]
  have hsorted : (List.insertionSort
      (fun a b => LexicalConfidence.reportKeyLe a b = true)
      (counter_items target_tokens)).Pairwise
      (fun a b => LexicalConfidence.reportKeyLe a b = true) :=
    List.sorted_insertionSort _ _
  have hne : (List.insertionSort
      (fun a b => LexicalConfidence.reportKeyLe a b = true)
      (counter_items target_tokens)).Pairwise (fun a b => a.1 ≠ b.1) :=
    pairwise_insertionSort_of_pairwise (fun h hh => h hh.symm)
      (counter_items_fst_pairwise target_tokens)
  refine (hsorted.and hne).imp ?_
  rintro a b ⟨hle, hab⟩
  unfold LexicalConfidence.reportKeyLe at hle
  by_cases h : a.2 = b.2
  · rw [if_pos h] at hle
    exact Or.inr ⟨h, strLt_of_strLe_of_ne _ _ hle hab⟩
  · rw [if_neg h] at hle
    exact Or.inl (of_decide_eq_true hle)

/-- Rows surviving the false-confidence filter carry pairwise distinct
words. -/
theorem fc_filter_words_pairwise (ref_counts : List Token) (target_counts : List Token) :
    (List.filterMap (fun wf =>
        if 0 < counter_get ref_counts wf.1 then none
        else if FalseConfidence.is_roman_numeral wf.1 then none
        else some (⟨wf.1, wf.2⟩ : FalseConfidence.FCRow))
      (counter_items target_counts)).Pairwise (fun a b => a.word ≠ b.word) := by
  rw [List.pairwise_filterMap]
  refine (counter_items_fst_pairwise target_counts).imp ?_
  intro a b hab x hx y hy
  have hxa : x.word = a.1 := by
    split at hx
    · simp at hx
    · split at hx
      · simp at hx
      · rw [show x = (⟨a.1, a.2⟩ : FalseConfidence.FCRow) from (by simpa using hx : _ = x).symm]
  have hyb : y.word = b.1 := by
    split at hy
    · simp at hy
    · split at hy
      · simp at hy
      · rw [show y = (⟨b.1, b.2⟩ : FalseConfidence.FCRow) from (by simpa using hy : _ = y).symm]
  rw [hxa, hyb]
  exact hab

/-- Claim C7: the rows of the false-confidence report are ordered by
ascending target frequency, ties broken by ascending lexicographic order of
the token string. -/
theorem c7_fc_report_sorted (ref_texts : List (List Char)) (target_text : List Char) :
    (FalseConfidence.build_false_confidence_rows ref_texts target_text).Pairwise
      fun r1 r2 =>
        r1.frequency_in_target < r2.frequency_in_target ∨
          (r1.frequency_in_target = r2.frequency_in_target ∧
            strLt r1.word r2.word = true) := by
  unfold FalseConfidence.build_false_confidence_rows
  have hsorted : (List.insertionSort
      (fun a b => FalseConfidence.fcKeyLe a b = true)
      (List.filterMap (fun wf =>
        if 0 < counter_get (FalseConfidence.build_reference_counts ref_texts) wf.1 then none
        else if FalseConfidence.is_roman_numeral wf.1 then none
        else some (⟨wf.1, wf.2⟩ : FalseConfidence.FCRow))
        (counter_items (FalseConfidence.tokens target_text)))).Pairwise
      (fun a b => FalseConfidence.fcKeyLe a b = true) :=
    List.sorted_insertionSort _ _
  have hne := pairwise_insertionSort_of_pairwise
    (S := fun a b : FalseConfidence.FCRow => a.word ≠ b.word)
    (r := fun a b => FalseConfidence.fcKeyLe a b = true)
    (fun h hh => h hh.symm)
    (fc_filter_words_pairwise (FalseConfidence.build_reference_counts ref_texts)
      (FalseConfidence.tokens target_text))
  refine (hsorted.and hne).imp ?_
  rintro a b ⟨hle, hab⟩
  unfold FalseConfidence.fcKeyLe at hle
  by_cases h : a.frequency_in_target = b.frequency_in_target
  · rw [if_pos h] at hle
    exact Or.inr ⟨h, strLt_of_strLe_of_ne _ _ hle hab⟩
  · rw [if_neg h] at hle
    exact Or.inl (of_decide_eq_true hle)

/-- Membership of a word among the false-confidence rows, in terms of the
counters. -/
theorem mem_fc_rows_iff (ref_texts : List (List Char)) (target_text : List Char)
    (w : Token) :
    (∃ r ∈ FalseConfidence.build_false_confidence_rows ref_texts target_text,
        r.word = w) ↔
      (w ∈ (FalseConfidence.tokens target_text).dedup ∧
        counter_get (FalseConfidence.build_reference_counts ref_texts) w = 0 ∧
        FalseConfidence.is_roman_numeral w = false) := by
  unfold FalseConfidence.build_false_confidence_rows
  constructor
  · rintro ⟨r, hr, rfl⟩
    rw [(List.perm_insertionSort _ _).mem_iff] at hr
    rcases List.mem_filterMap.mp hr with ⟨wf, hwf, hf⟩
    rcases List.mem_map.mp hwf with ⟨u, hu, rfl⟩
    split at hf
    · simp at hf
    · split at hf
      · simp at hf
      · rcases Option.some_inj.mp hf with rfl
        rename_i h1 h2
        have h1' : ¬ 0 < counter_get (FalseConfidence.build_reference_counts ref_texts) u := by
          simpa using h1
        have h2' : FalseConfidence.is_roman_numeral u ≠ true := by simpa using h2
        refine ⟨hu, ?_, ?_⟩
        · show counter_get (FalseConfidence.build_reference_counts ref_texts) u = 0
          omega
        · show FalseConfidence.is_roman_numeral u = false
          exact Bool.eq_false_iff.mpr h2'
  · rintro ⟨hw, h0, hrom⟩
    refine ⟨⟨w, (FalseConfidence.tokens target_text).count w⟩, ?_, rfl⟩
    rw [(List.perm_insertionSort _ _).mem_iff]
    refine List.mem_filterMap.mpr ⟨(w, (FalseConfidence.tokens target_text).count w),
      List.mem_map_of_mem _ hw, ?_⟩
    rw [if_neg (show ¬ 0 < counter_get (FalseConfidence.build_reference_counts ref_texts) w
        by omega),
      if_neg (show ¬ FalseConfidence.is_roman_numeral w = true by
        rw [hrom]; exact Bool.false_ne_true)]

/-- Claim C3: a token is selected into the false-confidence report iff it
occurs in the target document, its reference count is `0`, and it does not
consist solely of characters from `ivxlcdm` (case-insensitively); and the
Roman-numeral test is the permissive character-class check, accepting
e.g. `"iiii"` and `"xvxv"`. -/
theorem c3_false_confidence_selection :
    (∀ (ref_texts : List (List Char)) (target_text : List Char) (w : Token),
      (∃ r ∈ FalseConfidence.build_false_confidence_rows ref_texts target_text,
          r.word = w) ↔
        (w ∈ FalseConfidence.tokens target_text ∧
          counter_get (FalseConfidence.build_reference_counts ref_texts) w = 0 ∧
          ¬ ∀ c ∈ w,
            c ∈ ['i', 'v', 'x', 'l', 'c', 'd', 'm',
                 'I', 'V', 'X', 'L', 'C', 'D', 'M'])) ∧
    FalseConfidence.is_roman_numeral ['i', 'i', 'i', 'i'] = true ∧
    FalseConfidence.is_roman_numeral ['x', 'v', 'x', 'v'] = true := by
  refine ⟨?_, by decide, by decide⟩
  intro ref_texts target_text w
  rw [mem_fc_rows_iff, List.mem_dedup]
  constructor
  · rintro ⟨hw, h0, hrom⟩
    refine ⟨hw, h0, ?_⟩
    have hne : w ≠ [] := (mem_tokens target_text w hw).1
    have hempty : w.isEmpty = false := by
      cases w
      · exact absurd rfl hne
      · rfl
    intro hall
    have : FalseConfidence.is_roman_numeral w = true := by
      unfold FalseConfidence.is_roman_numeral
      rw [hempty]
      simp only [Bool.not_false, Bool.true_and, List.all_eq_true, decide_eq_true_eq]
      exact hall
    rw [this] at hrom
    simp at hrom
  · rintro ⟨hw, h0, hall⟩
    refine ⟨hw, h0, ?_⟩
    by_contra hrom
    apply hall
    have : FalseConfidence.is_roman_numeral w = true := by
      cases hh : FalseConfidence.is_roman_numeral w
      · exact absurd hh hrom
      · rfl
    unfold FalseConfidence.is_roman_numeral at this
    simp only [Bool.and_eq_true, List.all_eq_true, decide_eq_true_eq] at this
    exact fun c hc => this.2 c hc

/-- Counting is invariant under permutation (stated for the `BEq` instance
`List.count` itself uses). -/
theorem perm_count {α : Type} [BEq α] {l1 l2 : List α} (h : l1.Perm l2) (a : α) :
    l1.count a = l2.count a := by
  induction h with
  | nil => rfl
  | cons x _ ih => simp [List.count_cons, ih]
  | swap x y l => simp [List.count_cons]; omega
  | trans _ _ ih1 ih2 => exact (ih1 ).trans (ih2 )

/-- Claim C9: building the reference model is a count-summing homomorphism:
splitting the corpus into two parts in any order and summing the two
partial models yields the whole-corpus model pointwise; the model's total
count is the sum of the per-file token counts; and merging two counters by
summation is commutative. -/
theorem c9_model_homomorphism :
    (∀ (fs fs1 fs2 : List (List Char)), fs.Perm (fs1 ++ fs2) →
      ∀ w : Token,
        counter_get (FalseConfidence.build_reference_counts fs) w =
          counter_get (FalseConfidence.build_reference_counts fs1) w +
            counter_get (FalseConfidence.build_reference_counts fs2) w) ∧
    (∀ fs : List (List Char),
      counter_total (FalseConfidence.build_reference_counts fs) =
        (fs.map fun text => (FalseConfidence.tokens text).length).sum) ∧
    (∀ (c1 c2 : List Token) (w : Token),
      counter_get (counter_update c1 c2) w = counter_get (counter_update c2 c1) w) := by
  refine ⟨?_, ?_, ?_⟩
  · intro fs fs1 fs2 hperm w
    rw [build_reference_counts_eq_flatten, build_reference_counts_eq_flatten,
      build_reference_counts_eq_flatten]
    unfold counter_get
    rw [perm_count ((hperm.map FalseConfidence.tokens).flatten) w, List.map_append,
      List.flatten_append, List.count_append]
  · intro fs
    rw [build_reference_counts_eq_flatten]
    unfold counter_total
    rw [List.length_flatten, List.map_map]
    rfl
  · intro c1 c2 w
    unfold counter_get counter_update
    rw [List.count_append, List.count_append]
    omega

/-- Witness for `c9_model_homomorphism` on the two-file corpus
`["a", "ba"]` split as `["ba"]` and `["a"]`. -/
theorem c9_model_homomorphism_witness :
    ([['a'], ['b', 'a']] : List (List Char)).Perm ([['b', 'a']] ++ [['a']]) ∧
    counter_get (FalseConfidence.build_reference_counts [['a'], ['b', 'a']]) ['a'] =
      counter_get (FalseConfidence.build_reference_counts [['b', 'a']]) ['a'] +
        counter_get (FalseConfidence.build_reference_counts [['a']]) ['a'] :=
  ⟨List.Perm.swap _ _ _,
    c9_model_homomorphism.1 [['a'], ['b', 'a']] [['b', 'a']] [['a']]
      (List.Perm.swap _ _ _) ['a']⟩
